import Mathlib

set_option autoImplicit false

namespace MysqlAgent

/-- JSON-like values: the shallow embedding of the Go `interface{}` values that
tool parameters, tool outputs and schemas hold after JSON decoding.  Numeric
values are abstracted as integers (no claim inspects numeric content). -/
inductive JsonValue where
  | null
  | bool (b : Bool)
  | num (n : Int)
  | str (s : String)
  | arr (elems : List JsonValue)
  | obj (fields : List (String × JsonValue))

/-- Go `map[string]interface{}` parameter maps, embedded as association lists
with pairwise-distinct keys; a `nil` map and an empty map are both `[]`. -/
abbrev Params := List (String × JsonValue)

/-- Go's strings.TrimSpace: drop leading and trailing whitespace characters.
Embedded directly over the character list so that it evaluates by kernel
reduction. -/
def trimSpace (s : String) : String :=
  ⟨((s.data.dropWhile Char.isWhitespace).reverse.dropWhile Char.isWhitespace).reverse⟩

/-- mcp.Function from mcp/tools.go: name, description and parameter schema of a
tool. -/
structure Function where
  name : String
  description : String
  parameters : JsonValue

/-- mcp.ToolDefinition from mcp/tools.go. -/
structure ToolDefinition where
  type : String
  function : Function

/-- agent.toolPlanStep from service.go: one step of a tool plan. -/
structure toolPlanStep where
  tool : String
  reason : String
  params : Params

/-- agent.toolPlan from service.go. -/
structure toolPlan where
  steps : List toolPlanStep

/-- agent.toolExecutionResult from service.go.  `output` models the Go
`interface{}` field (`none` = nil) and `err` models the Go `error` field by its
message (`none` = nil). -/
structure toolExecutionResult where
  step : toolPlanStep
  description : String
  output : Option JsonValue
  err : Option String

/-- An mcp.Tool: its definition plus its `Execute` behaviour.  `Execute`
returns the Go pair `(interface{}, error)`, so both components are optional;
nothing at this level forces exactly one of them to be set. -/
structure Tool where
  definition : ToolDefinition
  execute : Params → Option JsonValue × Option String

/-- mcp.ToolRegistry from mcp/tools.go: a map from tool name to tool, embedded
as an association list with pairwise-distinct keys. -/
structure ToolRegistry where
  tools : List (String × Tool)

/-- ToolRegistry.GetTool from mcp/tools.go. -/
def ToolRegistry.getTool (r : ToolRegistry) (name : String) : Option Tool :=
  (r.tools.find? (fun kv => kv.1 == name)).map (fun kv => kv.2)

/-- ToolRegistry.GetToolDefinitions from mcp/tools.go. -/
def ToolRegistry.getToolDefinitions (r : ToolRegistry) : List ToolDefinition :=
  r.tools.map (fun kv => kv.2.definition)

/-- agent.normalizePlan's loop from service.go: walk the steps keeping a `seen`
set of trimmed tool names; drop steps whose trimmed name is empty or already
seen; keep survivors with trimmed name and reason.  The Go code copies the
params map into a fresh map (`nil` becomes empty); on the association-list
embedding that copy is the identity. -/
def normalizePlanAux (seen : List String) : List toolPlanStep → List toolPlanStep
  | [] => []
  | step :: rest =>
    let name := trimSpace step.tool
    if name = "" then
      normalizePlanAux seen rest
    else if name ∈ seen then
      normalizePlanAux seen rest
    else
      { tool := name, reason := trimSpace step.reason, params := step.params } ::
        normalizePlanAux (name :: seen) rest

/-- agent.normalizePlan from service.go (the Go version mutates the plan in
place; here it returns the normalized plan). -/
def normalizePlan (plan : toolPlan) : toolPlan :=
  { steps := normalizePlanAux [] plan.steps }

/-- The fixed default tool sequence `defaultToolSequence` from service.go. -/
def defaultToolSequence : List toolPlanStep :=
  [ { tool := "show_status", reason := "获取核心状态指标", params := [] },
    { tool := "show_connections", reason := "检查连接与会话情况", params := [] },
    { tool := "show_processlist", reason := "查看活跃会话与长事务",
      params := [("full", JsonValue.bool true)] },
    { tool := "slow_query_analysis", reason := "审阅Top慢查询指纹",
      params := [("limit", JsonValue.num 10)] } ]

/-- Service.defaultPlan from service.go: keep the default steps whose tool is
present among the catalog definitions (the Go code builds an `available` map
from the definitions and copies each kept step's params), then normalize. -/
def defaultPlan (toolDefs : List ToolDefinition) : toolPlan :=
  let available := fun name => toolDefs.any (fun d => d.function.name == name)
  let steps := (defaultToolSequence.filter (fun step => available step.tool)).map
    (fun step => { tool := step.tool, reason := step.reason, params := step.params })
  normalizePlan { steps := steps }

/-- The body of Service.executePlan's loop from service.go for one step: look
the tool up; if absent record a `tool ... not registered` error result; else
run it and record its definition's description together with the returned
output/error pair. -/
def runPlanStep (r : ToolRegistry) (step : toolPlanStep) : toolExecutionResult :=
  match r.getTool step.tool with
  | none =>
      { step := step, description := "", output := none,
        err := some ("tool " ++ step.tool ++ " not registered") }
  | some tool =>
      let result := tool.execute step.params
      { step := step, description := tool.definition.function.description,
        output := result.1, err := result.2 }

/-- Service.executePlan from service.go: run every step of the plan in order,
appending one result per step. -/
def executePlan (r : ToolRegistry) (plan : toolPlan) : List toolExecutionResult :=
  plan.steps.map (runPlanStep r)

/-- One entry of the `requiredSignalConfig` table from service.go. -/
structure signalConfigEntry where
  key : String
  name : String
  tool : String
  deriving Repr, DecidableEq

/-- The fixed `requiredSignalConfig` table from service.go. -/
def requiredSignalConfig : List signalConfigEntry :=
  [ ⟨"slow_queries", "慢查询情况", "slow_query_analysis"⟩,
    ⟨"lock_waits", "锁等待", "innodb_lock_waits"⟩,
    ⟨"replication_delay", "复制延迟", "replication_status"⟩,
    ⟨"long_transactions", "长事务", "innodb_trx"⟩ ]

/-- agent.signalStatus from service.go. -/
structure signalStatus where
  key : String
  name : String
  tool : String
  status : String
  notes : String
  deriving Repr, DecidableEq

/-- The `execStatus` map of buildSignalStatuses from service.go: Go fills a map
keyed by `exec.Step.Tool` in a loop, so a later execution of the same tool
overwrites an earlier one; the map lookup is therefore the last matching
execution. -/
def lastExecFor (executions : List toolExecutionResult) (toolName : String) :
    Option toolExecutionResult :=
  (executions.filter (fun e => e.step.tool == toolName)).getLast?

/-- The body of buildSignalStatuses' loop from service.go for one configured
signal: status defaults to not_collected; absent tool forces unsupported with
note "tool not registered"; an executed tool yields error (with the error's
message) or collected. -/
def signalFor (toolDefs : List ToolDefinition) (executions : List toolExecutionResult)
    (cfg : signalConfigEntry) : signalStatus :=
  if toolDefs.any (fun d => d.function.name == cfg.tool) then
    match lastExecFor executions cfg.tool with
    | some e =>
        match e.err with
        | some msg => ⟨cfg.key, cfg.name, cfg.tool, "error", msg⟩
        | none => ⟨cfg.key, cfg.name, cfg.tool, "collected", ""⟩
    | none => ⟨cfg.key, cfg.name, cfg.tool, "not_collected", ""⟩
  else
    ⟨cfg.key, cfg.name, cfg.tool, "unsupported", "tool not registered"⟩

/-- agent.buildSignalStatuses from service.go. -/
def buildSignalStatuses (toolDefs : List ToolDefinition)
    (executions : List toolExecutionResult) : List signalStatus :=
  requiredSignalConfig.map (signalFor toolDefs executions)

/-- The payload of one entry of the `raw` mapping / fallback snapshot built by
buildRaw and buildFallbackAnswer in service.go: the Go code stores the key
"error" with the error's message when the execution failed, otherwise the key
"result" with the (possibly nil) output. -/
inductive RawPayload where
  | errorMsg (msg : String)
  | result (val : Option JsonValue)

/-- One entry of the per-tool lists built by buildRaw / buildFallbackAnswer in
service.go: the step's params together with the output-or-error payload. -/
structure RawEntry where
  params : Params
  payload : RawPayload

/-- The entry built for one execution by the loops of buildRaw and
buildFallbackAnswer in service.go. -/
def execEntry (e : toolExecutionResult) : RawEntry :=
  { params := e.step.params,
    payload :=
      match e.err with
      | some msg => RawPayload.errorMsg msg
      | none => RawPayload.result e.output }

/-- One iteration of the grouping loops of buildRaw / buildFallbackAnswer in
service.go: if the tool already has a list, append to it, otherwise start a
fresh singleton list under that tool's key. -/
def addEntry : List (String × List RawEntry) → String → RawEntry → List (String × List RawEntry)
  | [], key, entry => [(key, [entry])]
  | (k, l) :: rest, key, entry =>
    if k = key then (k, l ++ [entry]) :: rest
    else (k, l) :: addEntry rest key entry

/-- The grouping loop shared by buildRaw and buildFallbackAnswer in service.go
(Go duplicates the loop verbatim in the two functions): fold all executions
into a map from tool name to its list of entries. -/
def groupExecutionEntries (executions : List toolExecutionResult) :
    List (String × List RawEntry) :=
  executions.foldl (fun acc e => addEntry acc e.step.tool (execEntry e)) []

/-- agent.buildRaw from service.go. -/
def buildRaw (executions : List toolExecutionResult) : List (String × List RawEntry) :=
  groupExecutionEntries executions

/-- The `snapshot` map built by Service.buildFallbackAnswer in service.go; its
loop is identical to buildRaw's. -/
def fallbackSnapshot (executions : List toolExecutionResult) :
    List (String × List RawEntry) :=
  groupExecutionEntries executions

/-- agent.ToolSource from service.go. -/
structure ToolSource where
  tool : String
  description : String
  status : String
  params : Params
  error : String

/-- agent.buildSources from service.go: one source entry per execution, status
"error" with the error's message on failure, "success" otherwise (the Go code
copies the params map; on this embedding the copy is the identity). -/
def buildSources (executions : List toolExecutionResult) : List ToolSource :=
  executions.map fun e =>
    match e.err with
    | some msg =>
        { tool := e.step.tool, description := e.description, status := "error",
          params := e.step.params, error := msg }
    | none =>
        { tool := e.step.tool, description := e.description, status := "success",
          params := e.step.params, error := "" }

/-- Escape of one character inside a JSON string literal (models the escaping
performed by Go's encoding/json). -/
def escapeJsonChar (c : Char) : String :=
  if c = '"' then "\\\""
  else if c = '\\' then "\\\\"
  else if c = '\n' then "\\n"
  else String.singleton c

/-- Escape of a string for inclusion in JSON output (models encoding/json). -/
def escapeJsonString (s : String) : String :=
  String.join (s.toList.map escapeJsonChar)

/-- Serialization of a JsonValue to JSON text.  This models Go's
encoding/json marshalling used by buildFallbackAnswer: object braces are
written, string content escaped; `MarshalIndent`'s indentation whitespace is
abstracted away (no claim depends on it). -/
def renderJsonValue : JsonValue → String
  | .null => "null"
  | .bool b => if b then "true" else "false"
  | .num n => toString n
  | .str s => "\"" ++ escapeJsonString s ++ "\""
  | .arr elems => "[" ++ String.intercalate "," (elems.attach.map (fun x => renderJsonValue x.1)) ++ "]"
  | .obj fields => "\x7b" ++ String.intercalate ","
      (fields.attach.map (fun x => "\"" ++ escapeJsonString x.1.1 ++ "\":" ++ renderJsonValue x.1.2))
      ++ "\x7d"
termination_by v => sizeOf v
decreasing_by
  · have h := List.sizeOf_lt_of_mem x.2
    simp only [JsonValue.arr.sizeOf_spec]
    omega
  · obtain ⟨⟨k, v⟩, hm⟩ := x
    have h := List.sizeOf_lt_of_mem hm
    simp only [JsonValue.obj.sizeOf_spec, Prod.mk.sizeOf_spec] at h ⊢
    omega

/-- Serialization of one raw/snapshot entry: Go marshals the inner
`map[string]interface{}` with its keys in sorted order, so "error" precedes
"params" and "params" precedes "result". -/
def renderRawEntry (entry : RawEntry) : String :=
  match entry.payload with
  | .errorMsg msg =>
      renderJsonValue (.obj [("error", .str msg), ("params", .obj entry.params)])
  | .result v =>
      renderJsonValue (.obj [("params", .obj entry.params), ("result", v.getD .null)])

/-- Insertion into a key-sorted entry list (helper for the sorted-key map
marshalling of encoding/json). -/
def insertSortedEntry (p : String × List RawEntry) :
    List (String × List RawEntry) → List (String × List RawEntry)
  | [] => [p]
  | q :: rest => if p.1 ≤ q.1 then p :: q :: rest else q :: insertSortedEntry p rest

/-- Key-sorting of the snapshot map (Go's encoding/json marshals map keys in
sorted order). -/
def sortEntriesByKey : List (String × List RawEntry) → List (String × List RawEntry)
  | [] => []
  | p :: rest => insertSortedEntry p (sortEntriesByKey rest)

/-- Serialization of the whole snapshot map to JSON text (models the
`json.MarshalIndent(snapshot, "", "  ")` call of buildFallbackAnswer, with
indentation whitespace abstracted away). -/
def renderSnapshot (snapshot : List (String × List RawEntry)) : String :=
  "\x7b" ++ String.intercalate ","
    ((sortEntriesByKey snapshot).map fun kv =>
      "\"" ++ escapeJsonString kv.1 ++ "\":[" ++
        String.intercalate "," (kv.2.map renderRawEntry) ++ "]")
  ++ "\x7d"

/-- The fixed explanation with which Service.buildFallbackAnswer prefixes its
dump in service.go. -/
def summaryFailedNotice : String := "工具执行完成，但总结阶段失败，请参考原始结果："

/-- Service.buildFallbackAnswer from service.go: group all execution results
per tool and return them as a JSON dump wrapped in a code fence, prefixed with
the fixed explanation that summarization failed.  (Go's marshal-error branch
cannot fire on this embedding, since every snapshot is serializable.) -/
def buildFallbackAnswer (executions : List toolExecutionResult) : String :=
  summaryFailedNotice ++ "\n```json\n" ++
    renderSnapshot (fallbackSnapshot executions) ++ "\n```"

/-- agent.QueryResponse from service.go, with the `raw` map embedded as an
association list. -/
structure QueryResponse where
  answer : String
  sources : List ToolSource
  raw : List (String × List RawEntry)

/-- The fixed guidance string Service.Query answers to an empty question. -/
def emptyQueryAnswer : String := "请输入有效的查询问题"

/-- The plan-selection stage of Service.Query (service.go lines 136-146): the
planner outcome models the generateToolPlan language-model round trip, whose
successful result is the parsed plan before normalization (generateToolPlan
itself normalizes before returning).  On a planning error the default plan is
substituted; if the resulting plan has zero steps the default plan is
substituted as well. -/
def effectivePlan (toolDefs : List ToolDefinition)
    (plannerOutcome : Except String toolPlan) : toolPlan :=
  let plan :=
    match plannerOutcome with
    | .error _ => defaultPlan toolDefs
    | .ok parsed => normalizePlan parsed
  if plan.steps.isEmpty then defaultPlan toolDefs else plan

/-- Service.Query from service.go.  The two language-model round trips are
given as outcome oracles: `plannerOutcome` is the parsed plan (or error) of
generateToolPlan and `summaryOutcome` the final answer text (or error) of
generateDBASummary; each is consumed exactly once, mirroring that neither call
is retried.  The returned pair is Go's `(error, *resp)`: the first component
`none` models the nil error. -/
def serviceQuery (reg : ToolRegistry) (plannerOutcome : Except String toolPlan)
    (summaryOutcome : Except String String) (reqQuery : String) :
    Option String × QueryResponse :=
  let query := trimSpace reqQuery
  if query = "" then
    (none, { answer := emptyQueryAnswer, sources := [], raw := [] })
  else
    let toolDefs := reg.getToolDefinitions
    let plan := effectivePlan toolDefs plannerOutcome
    let executions := executePlan reg plan
    let sources := buildSources executions
    let raw := buildRaw executions
    match summaryOutcome with
    | .error _ =>
        (none, { answer := buildFallbackAnswer executions, sources := sources, raw := raw })
    | .ok answer =>
        (none, { answer := answer, sources := sources, raw := raw })

/-- One scanned row of SlowQueryTool.Execute's digest query from mcp/tools.go
(numeric columns abstracted as integers, see JsonValue). -/
structure SlowQueryRow where
  queryText : String
  execCount : Int
  avgTime : Int
  maxTime : Int
  lockTime : Int

/-- The database oracle behind SlowQueryTool from mcp/tools.go: for a limit it
yields either a query error or the row set, each row carrying its own scan
outcome (rows.Scan can fail per row). -/
structure SlowQueryDB where
  rows : Int → Except String (List (Except String SlowQueryRow))

/-- The row-scanning loop of SlowQueryTool.Execute: rows are collected in
order; the first scan failure aborts with that error. -/
def scanSlowRows : List (Except String SlowQueryRow) → Except String (List SlowQueryRow)
  | [] => .ok []
  | .error e :: _ => .error e
  | .ok r :: rest => (scanSlowRows rest).map (fun l => r :: l)

/-- The JSON object built for one row by SlowQueryTool.Execute. -/
def slowRowJson (r : SlowQueryRow) : JsonValue :=
  .obj [ ("query_text", .str r.queryText),
         ("execution_count", .num r.execCount),
         ("avg_execution_time", .num r.avgTime),
         ("max_execution_time", .num r.maxTime),
         ("total_lock_time", .num r.lockTime) ]

/-- The limit extraction of SlowQueryTool.Execute: `params["limit"]` when it
is a JSON number, else the default 10. -/
def slowQueryLimit (params : Params) : Int :=
  match params.find? (fun kv => kv.1 == "limit") with
  | some (_, JsonValue.num n) => n
  | _ => 10

/-- SlowQueryTool.Execute from mcp/tools.go: read `limit` from the params (a
JSON number, defaulting to 10 when absent or of another type), query the
digest table, scan the rows, and return either `(nil, error)` on the query or
scan failure or `(result, nil)` on success. -/
def slowQueryExecute (db : SlowQueryDB) (params : Params) :
    Option JsonValue × Option String :=
  match db.rows (slowQueryLimit params) with
  | .error e => (none, some ("query slow queries: " ++ e))
  | .ok scanned =>
    match scanSlowRows scanned with
    | .error e => (none, some ("scan row: " ++ e))
    | .ok results =>
        (some (.obj [ ("slow_queries", .arr (results.map slowRowJson)),
                      ("total_count", .num results.length) ]), none)

/-- SlowQueryTool.GetDefinition from mcp/tools.go. -/
def slowQueryToolDefinition : ToolDefinition :=
  { type := "function",
    function :=
      { name := "slow_query_analysis",
        description := "分析MySQL慢查询日志，获取执行时间较长的SQL语句信息",
        parameters := .obj
          [ ("type", .str "object"),
            ("properties", .obj
              [ ("limit", .obj
                  [ ("type", .str "integer"),
                    ("description", .str "返回的慢查询条数，默认为10") ]) ]),
            ("required", .arr []) ] } }

/-- The SlowQueryTool from mcp/tools.go over a database oracle. -/
def slowQueryTool (db : SlowQueryDB) : Tool :=
  { definition := slowQueryToolDefinition, execute := slowQueryExecute db }

/-- The per-tool contract that the tool implementations of mcp/tools.go keep:
Execute populates exactly one of the output and the error. -/
def ToolContract (t : Tool) : Prop :=
  ∀ params,
    ((t.execute params).2 = none → ((t.execute params).1).isSome = true) ∧
    (∀ msg, (t.execute params).2 = some msg → (t.execute params).1 = none)

/-- Spec-side (claim C8): the step with tool name and reason trimmed. -/
def trimmedStep (step : toolPlanStep) : toolPlanStep :=
  { tool := trimSpace step.tool, reason := trimSpace step.reason, params := step.params }

/-- Spec-side (claim C8): keep only the first occurrence of each tool name,
order of survivors preserved; written from the claim's words, to be compared
against normalizePlan's seen-set loop. -/
def dedupFirstSpec : List toolPlanStep → List toolPlanStep
  | [] => []
  | s :: rest => s :: dedupFirstSpec (rest.filter (fun t => t.tool ≠ s.tool))
termination_by l => l.length
decreasing_by
  simp only [List.length_cons]
  exact Nat.lt_succ_of_le (List.length_filter_le _ _)

/-- Spec-side (claim C2): what the claim asserts of the status entry derived
for one configured required signal. -/
def signalClaimHolds (toolDefs : List ToolDefinition)
    (executions : List toolExecutionResult)
    (cfg : signalConfigEntry) (sig : signalStatus) : Prop :=
  sig.key = cfg.key ∧ sig.name = cfg.name ∧ sig.tool = cfg.tool ∧
  ((¬ ∃ d ∈ toolDefs, d.function.name = cfg.tool) →
      sig.status = "unsupported" ∧ sig.notes = "tool not registered") ∧
  ((∃ d ∈ toolDefs, d.function.name = cfg.tool) →
      (∀ e ∈ executions, e.step.tool ≠ cfg.tool) →
      sig.status = "not_collected" ∧ sig.notes = "") ∧
  (∀ e, (∃ d ∈ toolDefs, d.function.name = cfg.tool) →
      lastExecFor executions cfg.tool = some e →
      (∀ msg, e.err = some msg → sig.status = "error" ∧ sig.notes = msg) ∧
      (e.err = none → sig.status = "collected")) ∧
  (sig.status = "collected" → ∃ e ∈ executions, e.step.tool = cfg.tool)

/-- Sample database oracle: the digest table is empty. -/
def sampleDb : SlowQueryDB := ⟨fun _ => .ok []⟩

/-- Sample registry holding only the slow-query tool, as mcp.InitializeTools
would register it (keyed by its definition's name). -/
def sampleRegistry : ToolRegistry :=
  ⟨[("slow_query_analysis", slowQueryTool sampleDb)]⟩

/-- Sample plan whose first step names a tool absent from sampleRegistry and
whose second step names a registered tool. -/
def samplePlanMissing : toolPlan :=
  ⟨[ ⟨"innodb_trx", "查看长事务", []⟩,
     ⟨"slow_query_analysis", "查看慢查询", []⟩ ]⟩

/-- Sample catalog containing the status, connections and processlist tools
but not the slow-query tool (names and descriptions as registered by
mcp/tools.go; schemas abbreviated). -/
def catalogNoSlow : List ToolDefinition :=
  [ ⟨"function", ⟨"show_status", "显示MySQL服务器状态信息，包括连接数、查询数等关键指标",
      .obj [("type", .str "object")]⟩⟩,
    ⟨"function", ⟨"show_connections", "显示当前MySQL数据库的连接信息，包括活动连接列表和连接统计",
      .obj [("type", .str "object")]⟩⟩,
    ⟨"function", ⟨"show_processlist", "显示MySQL当前正在执行的进程列表，可以看到正在运行的查询",
      .obj [("type", .str "object")]⟩⟩ ]

theorem runPlanStep_step (r : ToolRegistry) (s : toolPlanStep) :
    (runPlanStep r s).step = s := by
  unfold runPlanStep
  cases r.getTool s.tool <;> rfl

theorem executePlan_map_step (r : ToolRegistry) (plan : toolPlan) :
    (executePlan r plan).map toolExecutionResult.step = plan.steps := by
  unfold executePlan
  rw [List.map_map]
  have h : toolExecutionResult.step ∘ runPlanStep r = id :=
    funext fun s => runPlanStep_step r s
  rw [h, List.map_id]

theorem executePlan_length (r : ToolRegistry) (plan : toolPlan) :
    (executePlan r plan).length = plan.steps.length := by
  have h := congrArg List.length (executePlan_map_step r plan)
  simpa using h

/-- C7: the executor produces exactly one ToolExecutionResult per step of the
plan it is given, in the plan's order — same length, same order, no reordering
and no omission. -/
theorem executePlan_results_match_plan (r : ToolRegistry) (plan : toolPlan) :
    (executePlan r plan).length = plan.steps.length ∧
    (executePlan r plan).map toolExecutionResult.step = plan.steps :=
  ⟨executePlan_length r plan, executePlan_map_step r plan⟩

/-- C1: a plan step naming a tool absent from the registry yields a result
carrying the "tool ... not registered" error (and no output), and every other
step still gets its own result — the executor never aborts the plan. -/
theorem executePlan_missing_tool_isolated (r : ToolRegistry) (plan : toolPlan)
    (i : Nat) (h : i < plan.steps.length) :
    (executePlan r plan).length = plan.steps.length ∧
    ∃ step res, plan.steps.get? i = some step ∧
      (executePlan r plan).get? i = some res ∧
      res.step = step ∧
      (r.getTool step.tool = none →
        res.err = some ("tool " ++ step.tool ++ " not registered") ∧
        res.output = none ∧ res.description = "") := by
  refine ⟨executePlan_length r plan, plan.steps.get ⟨i, h⟩, runPlanStep r (plan.steps.get ⟨i, h⟩), ?_, ?_, runPlanStep_step r _, ?_⟩
  · exact List.get?_eq_get h
  · unfold executePlan
    rw [List.get?_map, List.get?_eq_get h]
    rfl
  · intro hmiss
    unfold runPlanStep
    rw [hmiss]
    exact ⟨rfl, rfl, rfl⟩

/-- C1 witness: in a registry holding only the slow-query tool, a two-step plan
whose first step names the unregistered tool innodb_trx still yields a result
per step, the first carrying the not-registered error. -/
theorem executePlan_missing_tool_isolated_witness :
    (executePlan sampleRegistry samplePlanMissing).length =
        samplePlanMissing.steps.length ∧
    ∃ step res, samplePlanMissing.steps.get? 0 = some step ∧
      (executePlan sampleRegistry samplePlanMissing).get? 0 = some res ∧
      res.step = step ∧
      (sampleRegistry.getTool step.tool = none →
        res.err = some ("tool " ++ step.tool ++ " not registered") ∧
        res.output = none ∧ res.description = "") :=
  executePlan_missing_tool_isolated sampleRegistry samplePlanMissing 0 (by decide)

/-- C5: the Query facade never returns a protocol-level fault — its Go error
result is nil on every path (business failures are encoded in the response
body). -/
theorem serviceQuery_no_protocol_fault (reg : ToolRegistry)
    (plannerOutcome : Except String toolPlan) (summaryOutcome : Except String String)
    (reqQuery : String) :
    (serviceQuery reg plannerOutcome summaryOutcome reqQuery).1 = none := by
  simp only [serviceQuery]
  split
  · rfl
  · cases summaryOutcome <;> rfl

/-- C6: for a question that is empty after trimming, the facade answers with
the fixed guidance string, executes no tool, and bypasses planning and
summarization (the result does not depend on the registry or on either
language-model outcome), returning without fault. -/
theorem serviceQuery_empty_question (reg : ToolRegistry)
    (plannerOutcome : Except String toolPlan) (summaryOutcome : Except String String)
    (reqQuery : String) (h : trimSpace reqQuery = "") :
    serviceQuery reg plannerOutcome summaryOutcome reqQuery =
      (none, { answer := emptyQueryAnswer, sources := [], raw := [] }) := by
  simp [serviceQuery, h]

/-- C6 witness: a whitespace-only question is answered with the guidance
string and an otherwise empty response. -/
theorem serviceQuery_empty_question_witness :
    (trimSpace "   " = "") ∧
    serviceQuery sampleRegistry (Except.error "规划失败") (Except.ok "总结") "   " =
      (none, { answer := emptyQueryAnswer, sources := [], raw := [] }) :=
  ⟨by decide, serviceQuery_empty_question _ _ _ _ (by decide)⟩

theorem slowQueryExecute_shape (db : SlowQueryDB) (params : Params) :
    (∃ e, slowQueryExecute db params = (none, some e)) ∨
    (∃ v, slowQueryExecute db params = (some v, none)) := by
  rcases hr : db.rows (slowQueryLimit params) with e | scanned
  · left
    refine ⟨"query slow queries: " ++ e, ?_⟩
    simp [slowQueryExecute, hr]
  · rcases hs : scanSlowRows scanned with e | results
    · left
      refine ⟨"scan row: " ++ e, ?_⟩
      simp [slowQueryExecute, hr, hs]
    · right
      refine ⟨JsonValue.obj [ ("slow_queries", JsonValue.arr (results.map slowRowJson)),
        ("total_count", JsonValue.num results.length) ], ?_⟩
      simp [slowQueryExecute, hr, hs]

theorem slowQueryTool_contract (db : SlowQueryDB) :
    ToolContract (slowQueryTool db) := by
  intro params
  rcases slowQueryExecute_shape db params with ⟨e, he⟩ | ⟨v, hv⟩
  · constructor
    · intro hn
      rw [show (slowQueryTool db).execute params = slowQueryExecute db params from rfl, he] at hn
      simp at hn
    · intro msg _
      rw [show (slowQueryTool db).execute params = slowQueryExecute db params from rfl, he]
  · constructor
    · intro _
      rw [show (slowQueryTool db).execute params = slowQueryExecute db params from rfl, hv]
      rfl
    · intro msg hmsg
      rw [show (slowQueryTool db).execute params = slowQueryExecute db params from rfl, hv] at hmsg
      simp at hmsg

/-- C9: when every registered tool honours the tool contract of mcp/tools.go
(exactly one of output and error populated, as SlowQueryTool.Execute does),
every result the executor produces has exactly one of output and error set;
in particular a "tool not registered" result has no output. -/
theorem executePlan_output_error_exclusive (r : ToolRegistry) (plan : toolPlan)
    (hreg : ∀ kv ∈ r.tools, ToolContract kv.2) :
    ∀ res ∈ executePlan r plan,
      (∀ msg, res.err = some msg → res.output = none) ∧
      (res.err = none → res.output.isSome = true) := by
  intro res hres
  unfold executePlan at hres
  obtain ⟨step, hstep, rfl⟩ := List.mem_map.mp hres
  rcases hg : r.getTool step.tool with _ | tool
  · simp [runPlanStep, hg]
  · have htool : ToolContract tool := by
      unfold ToolRegistry.getTool at hg
      rcases hf : r.tools.find? (fun kv => kv.1 == step.tool) with _ | kv
      · rw [hf] at hg
        simp at hg
      · rw [hf] at hg
        simp only [Option.map_some', Option.some.injEq] at hg
        rw [← hg]
        exact hreg kv (List.mem_of_find?_eq_some hf)
    obtain ⟨h1, h2⟩ := htool step.params
    constructor
    · intro msg hmsg
      simp only [runPlanStep, hg] at hmsg ⊢
      exact h2 msg hmsg
    · intro hnone
      simp only [runPlanStep, hg] at hnone ⊢
      exact h1 hnone

/-- C9 witness: the sample registry (slow-query tool over an empty digest
table) satisfies the contract, so every result of executing the sample plan
has exactly one of output and error populated. -/
theorem executePlan_output_error_exclusive_witness :
    (∀ kv ∈ sampleRegistry.tools, ToolContract kv.2) ∧
    (∀ res ∈ executePlan sampleRegistry samplePlanMissing,
      (∀ msg, res.err = some msg → res.output = none) ∧
      (res.err = none → res.output.isSome = true)) := by
  have hreg : ∀ kv ∈ sampleRegistry.tools, ToolContract kv.2 := by
    intro kv hkv
    simp only [sampleRegistry, List.mem_singleton] at hkv
    subst hkv
    exact slowQueryTool_contract sampleDb
  exact ⟨hreg, executePlan_output_error_exclusive sampleRegistry samplePlanMissing hreg⟩

theorem dedupFirstSpec_nil : dedupFirstSpec [] = [] := by
  rw [dedupFirstSpec]

theorem dedupFirstSpec_cons (s : toolPlanStep) (rest : List toolPlanStep) :
    dedupFirstSpec (s :: rest) =
      s :: dedupFirstSpec (rest.filter (fun t => t.tool ≠ s.tool)) := by
  rw [dedupFirstSpec]

theorem normalizePlanAux_eq_spec (l : List toolPlanStep) (seen : List String) :
    normalizePlanAux seen l =
      dedupFirstSpec ((l.filter
        (fun s => trimSpace s.tool ≠ "" ∧ trimSpace s.tool ∉ seen)).map trimmedStep) := by
  induction l generalizing seen with
  | nil => rw [normalizePlanAux, List.filter_nil, List.map_nil, dedupFirstSpec]
  | cons s rest ih =>
    simp only [normalizePlanAux]
    by_cases h1 : trimSpace s.tool = ""
    · rw [if_pos h1, List.filter_cons_of_neg (by simp [h1])]
      exact ih seen
    · rw [if_neg h1]
      by_cases h2 : trimSpace s.tool ∈ seen
      · rw [if_pos h2, List.filter_cons_of_neg (by simp [h1, h2])]
        exact ih seen
      · rw [if_neg h2, List.filter_cons_of_pos (by simp [h1, h2]), List.map_cons,
          dedupFirstSpec_cons]
        congr 1
        rw [ih (trimSpace s.tool :: seen), List.filter_map, List.filter_filter]
        congr 1
        congr 1
        apply List.filter_congr
        intro a _
        simp only [Function.comp, trimmedStep, ne_eq]
        rw [← Bool.decide_and]
        apply decide_eq_decide.mpr
        simp only [List.mem_cons, not_or]
        tauto

theorem normalizePlan_steps_spec (plan : toolPlan) :
    (normalizePlan plan).steps =
      dedupFirstSpec ((plan.steps.filter
        (fun s => trimSpace s.tool ≠ "")).map trimmedStep) := by
  show normalizePlanAux [] plan.steps = _
  rw [normalizePlanAux_eq_spec]
  congr 2
  apply List.filter_congr
  intro a _
  simp

/-- C8: normalization removes exactly the steps whose tool name is empty after
trimming whitespace, keeps only the first occurrence of each (trimmed) tool
name with the order of survivors preserved, and trims the whitespace from each
kept step's tool and reason fields. -/
theorem normalizePlan_normalizes (plan : toolPlan) :
    (normalizePlan plan).steps =
      dedupFirstSpec ((plan.steps.filter
        (fun s => trimSpace s.tool ≠ "")).map trimmedStep) :=
  normalizePlan_steps_spec plan

theorem mem_of_mem_dedupFirstSpec (l : List toolPlanStep) :
    ∀ x, x ∈ dedupFirstSpec l → x ∈ l := by
  induction l using dedupFirstSpec.induct with
  | case1 =>
    intro x hx
    rw [dedupFirstSpec_nil] at hx
    cases hx
  | case2 s rest ih =>
    intro x hx
    rw [dedupFirstSpec_cons] at hx
    rcases List.mem_cons.mp hx with hx | hx
    · exact hx ▸ List.mem_cons_self _ _
    · exact List.mem_cons_of_mem _ (List.mem_of_mem_filter (ih x hx))

theorem dedupFirstSpec_tools_nodup (l : List toolPlanStep) :
    ((dedupFirstSpec l).map (fun s => s.tool)).Nodup := by
  induction l using dedupFirstSpec.induct with
  | case1 => rw [dedupFirstSpec_nil]; exact List.nodup_nil
  | case2 s rest ih =>
    rw [dedupFirstSpec_cons, List.map_cons, List.nodup_cons]
    refine ⟨?_, ih⟩
    intro hmem
    obtain ⟨x, hx, htool⟩ := List.mem_map.mp hmem
    have hxf := mem_of_mem_dedupFirstSpec _ x hx
    have hne := (List.mem_filter.mp hxf).2
    simp at hne
    exact hne htool

theorem normalizePlan_tools_nodup (plan : toolPlan) :
    ((normalizePlan plan).steps.map (fun s => s.tool)).Nodup := by
  rw [normalizePlan_steps_spec]
  exact dedupFirstSpec_tools_nodup _

theorem defaultPlan_tools_nodup (toolDefs : List ToolDefinition) :
    ((defaultPlan toolDefs).steps.map (fun s => s.tool)).Nodup :=
  normalizePlan_tools_nodup _

theorem effectivePlan_tools_nodup (toolDefs : List ToolDefinition)
    (o : Except String toolPlan) :
    ((effectivePlan toolDefs o).steps.map (fun s => s.tool)).Nodup := by
  rcases o with e | p
  · show (List.map (fun s => s.tool)
      (if (defaultPlan toolDefs).steps.isEmpty then defaultPlan toolDefs
        else defaultPlan toolDefs).steps).Nodup
    split
    · exact defaultPlan_tools_nodup _
    · exact defaultPlan_tools_nodup _
  · show (List.map (fun s => s.tool)
      (if (normalizePlan p).steps.isEmpty then defaultPlan toolDefs
        else normalizePlan p).steps).Nodup
    split
    · exact defaultPlan_tools_nodup _
    · exact normalizePlan_tools_nodup _

theorem executePlan_map_tool (r : ToolRegistry) (plan : toolPlan) :
    (executePlan r plan).map (fun e => e.step.tool) =
      plan.steps.map (fun s => s.tool) := by
  have h2 := congrArg (List.map (fun s : toolPlanStep => s.tool)) (executePlan_map_step r plan)
  rw [List.map_map] at h2
  exact h2

theorem addEntry_of_fresh (m : List (String × List RawEntry)) (k : String) (e : RawEntry)
    (h : ∀ pr ∈ m, pr.1 ≠ k) : addEntry m k e = m ++ [(k, [e])] := by
  induction m with
  | nil => rfl
  | cons p rest ih =>
    obtain ⟨k', l⟩ := p
    rw [addEntry, if_neg (h (k', l) (List.mem_cons_self _ _)), List.cons_append]
    rw [ih (fun pr hpr => h pr (List.mem_cons_of_mem _ hpr))]

theorem groupAux_of_nodup (execs : List toolExecutionResult) :
    ∀ (m : List (String × List RawEntry)),
    ((execs.map (fun e => e.step.tool)).Nodup) →
    (∀ pr ∈ m, ∀ e ∈ execs, pr.1 ≠ e.step.tool) →
    execs.foldl (fun acc e => addEntry acc e.step.tool (execEntry e)) m =
      m ++ execs.map (fun e => (e.step.tool, [execEntry e])) := by
  induction execs with
  | nil =>
    intro m _ _
    simp
  | cons e rest ih =>
    intro m hnodup hdisj
    rw [List.map_cons] at hnodup
    have hnd := List.nodup_cons.mp hnodup
    rw [List.foldl_cons,
      addEntry_of_fresh m e.step.tool (execEntry e)
        (fun pr hpr => hdisj pr hpr e (List.mem_cons_self _ _))]
    rw [ih (m ++ [(e.step.tool, [execEntry e])]) hnd.2 ?_]
    · simp
    · intro pr hpr e' he'
      rcases List.mem_append.mp hpr with hm | hs
      · exact hdisj pr hm e' (List.mem_cons_of_mem _ he')
      · have hpr1 : pr.1 = e.step.tool := by
          simp only [List.mem_singleton] at hs
          rw [hs]
        rw [hpr1]
        intro hEq
        exact hnd.1 (hEq ▸ List.mem_map_of_mem (fun x => x.step.tool) he')

theorem groupExecutionEntries_of_nodup (execs : List toolExecutionResult)
    (h : (execs.map (fun e => e.step.tool)).Nodup) :
    groupExecutionEntries execs = execs.map (fun e => (e.step.tool, [execEntry e])) := by
  have hg := groupAux_of_nodup execs [] h (by simp)
  simpa [groupExecutionEntries] using hg

theorem lastExecFor_mem {executions : List toolExecutionResult} {t : String}
    {e : toolExecutionResult} (h : lastExecFor executions t = some e) :
    e ∈ executions ∧ e.step.tool = t := by
  unfold lastExecFor at h
  have hmem := List.mem_of_getLast?_eq_some h
  have hf := List.mem_filter.mp hmem
  exact ⟨hf.1, by simpa using hf.2⟩

theorem lastExecFor_eq_none {executions : List toolExecutionResult} {t : String}
    (h : ∀ e ∈ executions, e.step.tool ≠ t) :
    lastExecFor executions t = none := by
  unfold lastExecFor
  rw [List.filter_eq_nil_iff.mpr (fun a ha => by simp [h a ha])]
  rfl

theorem signalFor_matches_claim (toolDefs : List ToolDefinition)
    (executions : List toolExecutionResult) (cfg : signalConfigEntry) :
    signalClaimHolds toolDefs executions cfg (signalFor toolDefs executions cfg) := by
  have hany : (toolDefs.any (fun d => d.function.name == cfg.tool)) = true ↔
      ∃ d ∈ toolDefs, d.function.name = cfg.tool := by
    simp [List.any_eq_true]
  by_cases hav : toolDefs.any (fun d => d.function.name == cfg.tool)
  · rcases hle : lastExecFor executions cfg.tool with _ | ex
    · have hsig : signalFor toolDefs executions cfg =
          ⟨cfg.key, cfg.name, cfg.tool, "not_collected", ""⟩ := by
        simp [signalFor, hav, hle]
      unfold signalClaimHolds
      rw [hsig]
      refine ⟨rfl, rfl, rfl, ?_, ?_, ?_, ?_⟩
      · intro hno
        exact absurd (hany.mp hav) hno
      · intro _ _
        exact ⟨rfl, rfl⟩
      · intro e _ he
        rw [hle] at he
        cases he
      · intro hc
        simp at hc
    · rcases hex : ex.err with _ | msg
      · have hsig : signalFor toolDefs executions cfg =
            ⟨cfg.key, cfg.name, cfg.tool, "collected", ""⟩ := by
          simp [signalFor, hav, hle, hex]
        unfold signalClaimHolds
        rw [hsig]
        refine ⟨rfl, rfl, rfl, ?_, ?_, ?_, ?_⟩
        · intro hno
          exact absurd (hany.mp hav) hno
        · intro _ hnone
          obtain ⟨hmem, htool⟩ := lastExecFor_mem hle
          exact absurd htool (hnone ex hmem)
        · intro e _ he
          rw [hle] at he
          cases he
          refine ⟨fun m hm => ?_, fun _ => rfl⟩
          rw [hex] at hm
          cases hm
        · intro _
          obtain ⟨hmem, htool⟩ := lastExecFor_mem hle
          exact ⟨ex, hmem, htool⟩
      · have hsig : signalFor toolDefs executions cfg =
            ⟨cfg.key, cfg.name, cfg.tool, "error", msg⟩ := by
          simp [signalFor, hav, hle, hex]
        unfold signalClaimHolds
        rw [hsig]
        refine ⟨rfl, rfl, rfl, ?_, ?_, ?_, ?_⟩
        · intro hno
          exact absurd (hany.mp hav) hno
        · intro _ hnone
          obtain ⟨hmem, htool⟩ := lastExecFor_mem hle
          exact absurd htool (hnone ex hmem)
        · intro e _ he
          rw [hle] at he
          cases he
          refine ⟨fun m hm => ?_, fun hn => ?_⟩
          · rw [hex] at hm
            cases hm
            exact ⟨rfl, rfl⟩
          · rw [hex] at hn
            cases hn
        · intro hc
          simp at hc
  · have hsig : signalFor toolDefs executions cfg =
        ⟨cfg.key, cfg.name, cfg.tool, "unsupported", "tool not registered"⟩ := by
      simp [signalFor, hav]
    unfold signalClaimHolds
    rw [hsig]
    refine ⟨rfl, rfl, rfl, ?_, ?_, ?_, ?_⟩
    · intro _
      exact ⟨rfl, rfl⟩
    · intro hex _
      exact absurd (hany.mpr hex) hav
    · intro e hex _
      exact absurd (hany.mpr hex) hav
    · intro hc
      simp at hc

/-- C2: for every catalog and every execution list, the signal-completeness
table has exactly one entry per configured required signal (exactly 4), and
each entry's status follows the claim's case split: unsupported with note
"tool not registered" when the tool is absent from the catalog, otherwise
not_collected when the tool never ran, otherwise error carrying the recorded
error's message, otherwise collected; a signal whose tool never ran is never
collected. -/
theorem buildSignalStatuses_covers_required (toolDefs : List ToolDefinition)
    (executions : List toolExecutionResult) :
    (buildSignalStatuses toolDefs executions).length = 4 ∧
    List.Forall₂ (signalClaimHolds toolDefs executions)
      requiredSignalConfig (buildSignalStatuses toolDefs executions) := by
  constructor
  · rfl
  · unfold buildSignalStatuses
    have hgen : ∀ (l : List signalConfigEntry),
        List.Forall₂ (signalClaimHolds toolDefs executions) l
          (l.map (signalFor toolDefs executions)) := by
      intro l
      induction l with
      | nil => exact List.Forall₂.nil
      | cons a t ih =>
        exact List.Forall₂.cons (signalFor_matches_claim toolDefs executions a) ih
    exact hgen requiredSignalConfig

theorem dedupFirstSpec_of_clean (l : List toolPlanStep)
    (hclean : ∀ s ∈ l, trimSpace s.tool = s.tool ∧ s.tool ≠ "" ∧ trimSpace s.reason = s.reason)
    (hnodup : (l.map (fun s => s.tool)).Nodup) :
    dedupFirstSpec ((l.filter (fun s => trimSpace s.tool ≠ "")).map trimmedStep) = l := by
  induction l with
  | nil => rw [List.filter_nil, List.map_nil, dedupFirstSpec_nil]
  | cons s rest ih =>
    obtain ⟨ht, hne, hr⟩ := hclean s (List.mem_cons_self _ _)
    rw [List.map_cons] at hnodup
    have hnd := List.nodup_cons.mp hnodup
    rw [List.filter_cons_of_pos (by simp [ht, hne]), List.map_cons]
    have hstep : trimmedStep s = s := by
      obtain ⟨t, r, p⟩ := s
      simp only [trimmedStep]
      simp only at ht hr
      rw [ht, hr]
    rw [hstep, dedupFirstSpec_cons]
    congr 1
    have hfid : ((rest.filter (fun s' => trimSpace s'.tool ≠ "")).map trimmedStep).filter
        (fun t => t.tool ≠ s.tool) =
        (rest.filter (fun s' => trimSpace s'.tool ≠ "")).map trimmedStep := by
      apply List.filter_eq_self.mpr
      intro x hx
      obtain ⟨y, hy, rfl⟩ := List.mem_map.mp hx
      have hymem := List.mem_of_mem_filter hy
      obtain ⟨hty, _, _⟩ := hclean y (List.mem_cons_of_mem _ hymem)
      have hyne : y.tool ≠ s.tool := by
        intro hEq
        exact hnd.1 (hEq ▸ List.mem_map_of_mem (fun z => z.tool) hymem)
      simp [trimmedStep, hty, hyne]
    rw [hfid]
    exact ih (fun x hx => hclean x (List.mem_cons_of_mem _ hx)) hnd.2

theorem defaultPlan_steps (toolDefs : List ToolDefinition) :
    (defaultPlan toolDefs).steps =
      defaultToolSequence.filter
        (fun s => toolDefs.any (fun d => d.function.name == s.tool)) := by
  simp only [defaultPlan]
  rw [List.map_id'' (fun s : toolPlanStep => rfl), normalizePlan_steps_spec]
  dsimp only
  apply dedupFirstSpec_of_clean
  · have hall : ∀ s ∈ defaultToolSequence,
        trimSpace s.tool = s.tool ∧ s.tool ≠ "" ∧ trimSpace s.reason = s.reason := by decide
    exact fun s hs => hall s (List.mem_of_mem_filter hs)
  · have hseq : (defaultToolSequence.map (fun s => s.tool)).Nodup := by decide
    exact List.Nodup.sublist ((List.filter_sublist _).map _) hseq

/-- C3: when planning fails, or when the parsed plan normalizes to zero
steps, the effective plan is the fixed default sequence (status, connections,
full processlist, slow-query digest) restricted to the tools present in the
catalog, in that fixed priority order. -/
theorem effectivePlan_fallback_default (toolDefs : List ToolDefinition)
    (o : Except String toolPlan)
    (h : ∀ p, o = Except.ok p → (normalizePlan p).steps = []) :
    effectivePlan toolDefs o = defaultPlan toolDefs ∧
    (defaultPlan toolDefs).steps =
      defaultToolSequence.filter
        (fun s => toolDefs.any (fun d => d.function.name == s.tool)) := by
  refine ⟨?_, defaultPlan_steps toolDefs⟩
  rcases o with e | p
  · show (if (defaultPlan toolDefs).steps.isEmpty then defaultPlan toolDefs
      else defaultPlan toolDefs) = defaultPlan toolDefs
    split <;> rfl
  · have hp := h p rfl
    show (if (normalizePlan p).steps.isEmpty then defaultPlan toolDefs
      else normalizePlan p) = defaultPlan toolDefs
    rw [hp]
    rfl

/-- C3 witness: with a catalog missing the slow-query tool, a failed planning
call yields the default plan, whose steps are exactly status, connections,
processlist in that order. -/
theorem effectivePlan_fallback_default_witness :
    (effectivePlan catalogNoSlow (Except.error "规划调用失败") = defaultPlan catalogNoSlow ∧
      (defaultPlan catalogNoSlow).steps =
        defaultToolSequence.filter
          (fun s => catalogNoSlow.any (fun d => d.function.name == s.tool))) ∧
    (defaultPlan catalogNoSlow).steps.map (fun s => s.tool) =
      ["show_status", "show_connections", "show_processlist"] :=
  ⟨effectivePlan_fallback_default catalogNoSlow (Except.error "规划调用失败")
      (fun _ hp => nomatch hp),
    by decide⟩

/-- C10: every plan reaching the executor — whether from the language-model
path or the default path — has pairwise-distinct tool names; consequently the
raw mapping has one key per tool named in the plan, and every per-tool list in
the raw mapping and in the fallback snapshot has exactly one entry. -/
theorem effectivePlan_distinct_raw_singletons (reg : ToolRegistry)
    (o : Except String toolPlan) :
    ((effectivePlan reg.getToolDefinitions o).steps.map (fun s => s.tool)).Nodup ∧
    buildRaw (executePlan reg (effectivePlan reg.getToolDefinitions o)) =
      (executePlan reg (effectivePlan reg.getToolDefinitions o)).map
        (fun e => (e.step.tool, [execEntry e])) ∧
    fallbackSnapshot (executePlan reg (effectivePlan reg.getToolDefinitions o)) =
      (executePlan reg (effectivePlan reg.getToolDefinitions o)).map
        (fun e => (e.step.tool, [execEntry e])) ∧
    (buildRaw (executePlan reg (effectivePlan reg.getToolDefinitions o))).map Prod.fst =
      (effectivePlan reg.getToolDefinitions o).steps.map (fun s => s.tool) ∧
    ∀ pr ∈ buildRaw (executePlan reg (effectivePlan reg.getToolDefinitions o)),
      pr.2.length = 1 := by
  have hplan := effectivePlan_tools_nodup reg.getToolDefinitions o
  have hexec : ((executePlan reg (effectivePlan reg.getToolDefinitions o)).map
      (fun e => e.step.tool)).Nodup := by
    rw [executePlan_map_tool]
    exact hplan
  have hgrp : buildRaw (executePlan reg (effectivePlan reg.getToolDefinitions o)) =
      (executePlan reg (effectivePlan reg.getToolDefinitions o)).map
        (fun e => (e.step.tool, [execEntry e])) :=
    groupExecutionEntries_of_nodup _ hexec
  have hsnap : fallbackSnapshot (executePlan reg (effectivePlan reg.getToolDefinitions o)) =
      (executePlan reg (effectivePlan reg.getToolDefinitions o)).map
        (fun e => (e.step.tool, [execEntry e])) :=
    groupExecutionEntries_of_nodup _ hexec
  refine ⟨hplan, hgrp, hsnap, ?_, ?_⟩
  · rw [hgrp, List.map_map]
    exact executePlan_map_tool reg _
  · intro pr hpr
    rw [hgrp] at hpr
    obtain ⟨x, _, rfl⟩ := List.mem_map.mp hpr
    rfl

theorem buildFallbackAnswer_ne_empty (executions : List toolExecutionResult) :
    buildFallbackAnswer executions ≠ "" := by
  intro h
  have hl := congrArg String.length h
  rw [buildFallbackAnswer, String.length_append, String.length_append,
    String.length_append] at hl
  have h0 : String.length "" = 0 := rfl
  rw [h0] at hl
  have hpos : 0 < summaryFailedNotice.length := by decide
  omega

/-- C4: when the summarization call fails, the response's answer is the
fallback dump of all execution results grouped per tool (params plus
output-or-error), prefixed with the fixed explanation that summarization
failed; the single summarizer outcome is consumed once (no retry), and the
answer is non-empty. -/
theorem serviceQuery_summary_fallback (reg : ToolRegistry) (o : Except String toolPlan)
    (q e : String) (hq : trimSpace q ≠ "") :
    ((serviceQuery reg o (Except.error e) q).2).answer =
        buildFallbackAnswer (executePlan reg (effectivePlan reg.getToolDefinitions o)) ∧
    (∃ rest, ((serviceQuery reg o (Except.error e) q).2).answer =
        summaryFailedNotice ++ rest) ∧
    ((serviceQuery reg o (Except.error e) q).2).answer ≠ "" ∧
    fallbackSnapshot (executePlan reg (effectivePlan reg.getToolDefinitions o)) =
      (executePlan reg (effectivePlan reg.getToolDefinitions o)).map
        (fun x => (x.step.tool, [execEntry x])) := by
  have hans : ((serviceQuery reg o (Except.error e) q).2).answer =
      buildFallbackAnswer (executePlan reg (effectivePlan reg.getToolDefinitions o)) := by
    simp only [serviceQuery]
    rw [if_neg hq]
  have hsnap : fallbackSnapshot (executePlan reg (effectivePlan reg.getToolDefinitions o)) =
      (executePlan reg (effectivePlan reg.getToolDefinitions o)).map
        (fun x => (x.step.tool, [execEntry x])) := by
    apply groupExecutionEntries_of_nodup
    rw [executePlan_map_tool]
    exact effectivePlan_tools_nodup _ _
  refine ⟨hans,
    ⟨"\n```json\n" ++
        renderSnapshot (fallbackSnapshot
          (executePlan reg (effectivePlan reg.getToolDefinitions o))) ++ "\n```", ?_⟩,
    ?_, hsnap⟩
  · rw [hans, buildFallbackAnswer]
    apply String.ext
    simp [List.append_assoc]
  · rw [hans]
    exact buildFallbackAnswer_ne_empty _

/-- C4 witness: with the sample registry, a plan naming a missing tool and a
registered tool, and a failed summarization call, the answer is the prefixed
fallback dump with one snapshot entry per tool. -/
theorem serviceQuery_summary_fallback_witness :
    (trimSpace "为什么数据库变慢" ≠ "") ∧
    (((serviceQuery sampleRegistry (Except.ok samplePlanMissing)
          (Except.error "超时") "为什么数据库变慢").2).answer =
        buildFallbackAnswer (executePlan sampleRegistry
          (effectivePlan sampleRegistry.getToolDefinitions (Except.ok samplePlanMissing))) ∧
      (∃ rest, ((serviceQuery sampleRegistry (Except.ok samplePlanMissing)
          (Except.error "超时") "为什么数据库变慢").2).answer =
          summaryFailedNotice ++ rest) ∧
      ((serviceQuery sampleRegistry (Except.ok samplePlanMissing)
          (Except.error "超时") "为什么数据库变慢").2).answer ≠ "" ∧
      fallbackSnapshot (executePlan sampleRegistry
          (effectivePlan sampleRegistry.getToolDefinitions (Except.ok samplePlanMissing))) =
        (executePlan sampleRegistry
          (effectivePlan sampleRegistry.getToolDefinitions (Except.ok samplePlanMissing))).map
          (fun x => (x.step.tool, [execEntry x]))) :=
  ⟨by decide,
    serviceQuery_summary_fallback sampleRegistry (Except.ok samplePlanMissing)
      "为什么数据库变慢" "超时" (by decide)⟩

end MysqlAgent
